import Mathlib

/-!
Verification development for the billdozer tool-orchestration core.

The definitions below are a shallow embedding of the Go source:
  * `Registry`, `Registry.Register`, `Registry.GetAll`, `Registry.GetByName`,
    `Registry.Clear` from `internal/tools` (registry file): the Go slice of
    `ToolDefinition` becomes a Lean list; the `sync.RWMutex` has no functional
    content and is elided (see the concurrency claim, settled separately).
  * `GenerateSchema` from `internal/schema`, together with a model of the
    `invopop/jsonschema` reflector and of `anthropic.ToolInputSchemaParam`.
  * `EditFileTool.Execute` from `internal/tools/file/edit.go` and
    `DeleteFileTool.Execute` from `internal/tools/file/delete.go`, as explicit
    state transformers over a filesystem model `Fs`, additionally returning the
    trace of filesystem operations the call performs.
Machine-level details that the claims do not touch (file permissions 0644/0755,
I/O failures of `os.WriteFile` after a successful read) are noted in comments
at the definition they concern.
-/

/-- A schema entry for one declared input field, as produced by the
`invopop/jsonschema` reflector from a struct field's name, type and
`jsonschema_description` tag. The claims only inspect which names appear,
so the type/description payload is kept as the description string. -/
structure PropSchema where
  description : String
  deriving DecidableEq, Repr

/-- Model of `anthropic.ToolInputSchemaParam`: the schema object advertised to
the model provider, a JSON object with `type: "object"` (implicit), a
`properties` map, and a `required` name list (absent entries = empty list). -/
structure ToolInputSchemaParam where
  Properties : List (String × PropSchema)
  Required : List String
  deriving DecidableEq, Repr

/-- Model of a tool's declared input shape: one entry per declared struct
field. `optional` is true when the field is declared optional (Go: a
`,omitempty` JSON tag, e.g. `ListFilesInput.Path`); fields without it are
reflected as required by `invopop/jsonschema`. -/
structure FieldSpec where
  name : String
  optional : Bool
  description : String
  deriving DecidableEq, Repr

/-- Model of the full schema returned by `jsonschema.Reflector.Reflect` (with
`DoNotReference` set): a `Properties` map with every declared field, and a
`Required` list with every field not declared optional. -/
structure ReflectedSchema where
  Properties : List (String × PropSchema)
  Required : List String
  deriving DecidableEq, Repr

/-- Go `reflector.Reflect(v)` for an input-shape type: every declared field lands
in `Properties`; every non-optional field's name lands in `Required`. -/
def reflect (shape : List FieldSpec) : ReflectedSchema :=
  { Properties := shape.map (fun f => (f.name, ⟨f.description⟩))
    Required := (shape.filter (fun f => !f.optional)).map (·.name) }

/-- Go `GenerateSchema[T]()` from `internal/schema`: reflects the input shape and
builds the advertised param from the reflected `Properties` alone — the
reflected `Required` list is not copied into the returned value, whose
`Required` is therefore empty. -/
def GenerateSchema (shape : List FieldSpec) : ToolInputSchemaParam :=
  let schema := reflect shape
  { Properties := schema.Properties
    Required := [] }

/-- Model of `tools.ToolDefinition`. The `Function` handler is a closure whose
only registry-relevant property is its identity, kept as a tag so that
definitions compare decidably; its behaviour is embedded separately as the
`Execute` functions of the individual tools. -/
structure ToolDefinition where
  Name : String
  Description : String
  InputSchema : ToolInputSchemaParam
  Function : Nat
  deriving DecidableEq, Repr

/-- Model of `tools.Registry`: the `tools []ToolDefinition` slice as a list in
the same order; the `sync.RWMutex` field carries no functional state. -/
structure Registry where
  tools : List ToolDefinition
  deriving DecidableEq, Repr

/-- The zero-value registry (`&Registry{}`, as `DefaultRegistry` starts). -/
def Registry.empty : Registry := ⟨[]⟩

/-- Go `Registry.Register`: appends the tool to the slice, unconditionally. -/
def Registry.Register (r : Registry) (tool : ToolDefinition) : Registry :=
  ⟨r.tools ++ [tool]⟩

/-- Go `Registry.GetAll`: returns a copy of the slice; in value semantics the
copy is the list itself (the aliasing content of the copy is modelled
separately for the snapshot claim, see `getAllMem`). -/
def Registry.GetAll (r : Registry) : List ToolDefinition :=
  r.tools

/-- Go `Registry.GetByName`: scans the slice in order and returns (a copy of) the
first tool whose `Name` matches, or `nil` (here `none`) when absent. -/
def Registry.GetByName (r : Registry) (name : String) : Option ToolDefinition :=
  r.tools.find? (fun tool => tool.Name == name)

/-- Go `Registry.Clear`: truncates the slice to length zero. -/
def Registry.Clear (_ : Registry) : Registry :=
  ⟨[]⟩

/-- Registering a whole list of tools in order, as the `init` functions of the
tool files do one after the other against `DefaultRegistry`. -/
def registerAll (defs : List ToolDefinition) : Registry :=
  defs.foldl Registry.Register Registry.empty

/-- The edit_file input shape (`EditFileInput`): three fields, none declared
optional (no `,omitempty` on their JSON tags). -/
def editFileShape : List FieldSpec :=
  [⟨"path", false, "The path to the file"⟩,
   ⟨"old_str", false,
     "Text to search for - must match exactly and must only have one match exactly"⟩,
   ⟨"new_str", false, "Text to replace old_str with"⟩]

/-- The delete_file input shape (`DeleteFileInput`): one required field. -/
def deleteFileShape : List FieldSpec :=
  [⟨"path", false, "File path to delete. Must be an existing file."⟩]

/-- A concrete `edit_file` registration, used as a test vector. -/
def editDefA : ToolDefinition :=
  ⟨"edit_file", "first registration", GenerateSchema editFileShape, 0⟩

/-- A second, distinct definition under the same `edit_file` name. -/
def editDefB : ToolDefinition :=
  ⟨"edit_file", "second registration", GenerateSchema editFileShape, 1⟩

/-- A concrete `delete_file` registration, used as a test vector. -/
def deleteDef : ToolDefinition :=
  ⟨"delete_file", "Delete a file from the filesystem.", GenerateSchema deleteFileShape, 2⟩

/-! ### JSON payloads and decoding (`encoding/json`) -/

/-- A parsed JSON value, for modelling `json.RawMessage` payloads. -/
inductive Jval where
  | null
  | bool (b : Bool)
  | num (n : Int)
  | str (s : String)
  | arr (elems : List Jval)
  | obj (fields : List (String × Jval))

/-- A raw argument payload (`json.RawMessage`): `some v` for bytes that parse
to the JSON value `v`, `none` for bytes that are not syntactically valid
JSON (on which `json.Unmarshal` fails with a syntax error). -/
abbrev RawMessage := Option Jval

/-- Object-field lookup as `encoding/json` resolves duplicate keys: the last
occurrence wins. -/
def jsonLookup (fields : List (String × Jval)) (key : String) : Option Jval :=
  (fields.reverse.find? (fun f => f.1 == key)).map (fun f => f.2)

/-- Decoding one `string`-typed struct field, as `json.Unmarshal` does: a
missing key or a JSON `null` leaves the zero value `""`; a JSON string is
taken verbatim; any other JSON value is a type-mismatch error. -/
def decodeStrField (fields : List (String × Jval)) (key : String) : Except String String :=
  match jsonLookup fields key with
  | none => .ok ""
  | some .null => .ok ""
  | some (.str s) => .ok s
  | some _ => .error ("json: cannot unmarshal value into Go struct field of type string: " ++ key)

/-- Go `EditFileInput` from `internal/tools/file/edit.go`. -/
structure EditFileInput where
  Path : String
  OldStr : String
  NewStr : String
  deriving DecidableEq, Repr

/-- Go `DeleteFileInput` from `internal/tools/file/delete.go`. -/
structure DeleteFileInput where
  Path : String
  deriving DecidableEq, Repr

/-- Go `json.Unmarshal(input, &editFileInput)`: a syntax error or a non-object,
non-null top-level value fails; `null` is a no-op leaving the zero value;
an object decodes its three string fields (unknown keys are ignored). -/
def decodeEditFileInput : RawMessage → Except String EditFileInput
  | none => .error "invalid character in JSON input"
  | some .null => .ok ⟨"", "", ""⟩
  | some (.obj fields) => do
      let path ← decodeStrField fields "path"
      let oldStr ← decodeStrField fields "old_str"
      let newStr ← decodeStrField fields "new_str"
      pure ⟨path, oldStr, newStr⟩
  | some _ => .error "json: cannot unmarshal value into Go value of type file.EditFileInput"

/-- Go `json.Unmarshal(input, &deleteInput)`, same conventions as above. -/
def decodeDeleteInput : RawMessage → Except String DeleteFileInput
  | none => .error "invalid character in JSON input"
  | some .null => .ok ⟨""⟩
  | some (.obj fields) => do
      let path ← decodeStrField fields "path"
      pure ⟨path⟩
  | some _ => .error "json: cannot unmarshal value into Go value of type file.DeleteFileInput"

/-! ### Go string helpers (`strings.Replace`, `strings.Contains`,
`strings.TrimSpace`, `strings.ToLower`) -/

/-- Go `strings.Replace(s, old, new, -1)` for an empty `old`: `new` is inserted
before every character and at the end. -/
def replaceEmptyPat (new : List Char) : List Char → List Char
  | [] => new
  | c :: rest => new ++ c :: replaceEmptyPat new rest

/-- Go `strings.Replace(s, old, new, -1)` for a non-empty `old`: replace every
non-overlapping occurrence, scanning left to right. -/
def replaceAux (old new : List Char) (s : List Char) : List Char :=
  match s with
  | [] => []
  | c :: rest =>
      if old ≠ [] ∧ old.isPrefixOf (c :: rest) then
        new ++ replaceAux old new (rest.drop (old.length - 1))
      else
        c :: replaceAux old new rest
termination_by s.length
decreasing_by
  · simp only [List.length_drop, List.length_cons]
    omega
  · simp only [List.length_cons]
    omega

/-- Go `strings.Replace(oldContent, old, new, -1)` as called in
`EditFileTool.Execute`. -/
def goReplaceAll (s old new : String) : String :=
  if old.data = [] then ⟨replaceEmptyPat new.data s.data⟩
  else ⟨replaceAux old.data new.data s.data⟩

/-- Whether `pat` occurs as a contiguous substring, by the same left-to-right
prefix scan `replaceAux` performs. -/
def containsAux (pat : List Char) : List Char → Bool
  | [] => pat.isPrefixOf []
  | c :: rest => pat.isPrefixOf (c :: rest) || containsAux pat rest

/-- Go `strings.Contains(s, pat)`. -/
def containsSubstr (s pat : String) : Bool :=
  containsAux pat.data s.data

/-- Go `unicode.IsSpace`: the Unicode White_Space runes — the ASCII spaces,
NEL and NBSP from Latin-1, and U+1680, U+2000..U+200A, U+2028, U+2029,
U+202F, U+205F, U+3000 from the higher planes. -/
def isGoSpace (c : Char) : Bool :=
  c = ' ' || c = '\t' || c = '\n' || c = '\x0B' || c = '\x0C' || c = '\r' ||
    c = '\u0085' || c = '\u00A0' || c = '\u1680' ||
    ('\u2000' ≤ c && c ≤ '\u200A') ||
    c = '\u2028' || c = '\u2029' || c = '\u202F' || c = '\u205F' || c = '\u3000'

/-- Go `strings.TrimSpace`: drop leading and trailing white space. -/
def goTrimSpace (s : String) : String :=
  ⟨((s.data.dropWhile isGoSpace).reverse.dropWhile isGoSpace).reverse⟩

/-- Go `strings.ToLower` (agrees with Go on ASCII, the range the claims use). -/
def goToLower (s : String) : String :=
  ⟨s.data.map Char.toLower⟩

/-- The characters strictly before the last `/`, or `none` when the path has
no separator (used to carve out the directory part `path.Dir` cleans). -/
def lastSlashSplit : List Char → Option (List Char)
  | [] => none
  | c :: rest =>
      match lastSlashSplit rest with
      | some pre => some (c :: pre)
      | none => if c = '/' then some [] else none

/-- Splitting a path at every `/` (empty elements mark repeated or leading
separators, as Go sees them). -/
def splitSlash : List Char → List (List Char)
  | [] => [[]]
  | c :: rest =>
      let r := splitSlash rest
      if c = '/' then [] :: r
      else
        match r with
        | h :: t => (c :: h) :: t
        | [] => [[c]]

/-- One step of Go `path.Clean`'s element processing (stack kept reversed):
empty and `.` elements vanish; `..` pops a normal element, stacks after a
leading `..` when the path is relative, and vanishes at the root. -/
def cleanStep (rooted : Bool) (stack : List (List Char)) (elem : List Char) :
    List (List Char) :=
  if elem = [] ∨ elem = ['.'] then stack
  else if elem = ['.', '.'] then
    match stack with
    | top :: rest => if top = ['.', '.'] then elem :: stack else rest
    | [] => if rooted then [] else [elem]
  else elem :: stack

/-- Joining cleaned elements back with single separators. -/
def joinSlash : List (List Char) → List Char
  | [] => []
  | [x] => x
  | x :: xs => x ++ '/' :: joinSlash xs

/-- Go `path.Clean`: lexical simplification — repeated separators collapse,
`.` elements vanish, `..` consumes the preceding element; `""` cleans to
`"."` and a rooted path keeps its leading `/`. -/
def goPathClean (p : String) : String :=
  match p.data with
  | [] => "."
  | c :: rest =>
      let rooted := c = '/'
      let stack := (splitSlash (c :: rest)).foldl (cleanStep rooted) []
      let body := joinSlash stack.reverse
      if rooted then ⟨'/' :: body⟩
      else if body = [] then "." else ⟨body⟩

/-- Go `path.Dir`: `Clean` of everything through the last separator; `"."`
when the path has no separator. -/
def pathDir (p : String) : String :=
  match lastSlashSplit p.data with
  | none => "."
  | some pre => goPathClean ⟨pre ++ ['/']⟩

/-! ### Filesystem model -/

/-- A filesystem entry: a regular file with its content, or a directory. -/
inductive Entry where
  | file (content : String)
  | dir
  deriving DecidableEq, Repr

/-- The filesystem as a finite association of paths to entries (first match
wins; update keeps at most one entry per path). -/
structure Fs where
  entries : List (String × Entry)
  deriving DecidableEq, Repr

def Fs.lookup (fs : Fs) (p : String) : Option Entry :=
  (fs.entries.find? (fun e => e.1 == p)).map (fun e => e.2)

def Fs.setEntry (fs : Fs) (p : String) (e : Entry) : Fs :=
  ⟨(p, e) :: fs.entries.filter (fun q => q.1 != p)⟩

/-- Whether the path string itself can only name a directory: `.` and `..`
always resolve to directories, and a trailing separator forces directory
resolution — `open` with `O_CREATE` fails on all of these. -/
def isDirStylePath (p : String) : Bool :=
  p == "." || p == ".." || p.data.getLast? == some '/'

/-- Go `os.WriteFile(p, content, 0644)`: create or truncate a regular file;
fails when the path resolves to a directory — an explicit `.dir` entry at
the key, or a directory-only path shape. (Keys are canonical path strings;
aliasing through inner `..`/`.` components, permissions, and a missing
parent of a fresh path — the call sites write where a read succeeded or
after `MkdirAll` — stay outside the flat model.) -/
def Fs.writeFile (fs : Fs) (p content : String) : Except String Fs :=
  if isDirStylePath p then .error ("open " ++ p ++ ": is a directory")
  else
    match fs.lookup p with
    | some .dir => .error ("open " ++ p ++ ": is a directory")
    | _ => .ok (fs.setEntry p (.file content))

/-- Go `os.Remove(p)` on an existing file. -/
def Fs.removeEntry (fs : Fs) (p : String) : Fs :=
  ⟨fs.entries.filter (fun q => q.1 != p)⟩

/-- Go `os.MkdirAll(d, 0755)`: a no-op when the directory exists, fails when
a regular file occupies the path, otherwise the directory is created
(intermediate ancestors are not materialised as separate entries — the flat
model keys whole paths). -/
def Fs.mkdirAll (fs : Fs) (d : String) : Except String Fs :=
  match fs.lookup d with
  | some (.file _) => .error ("mkdir " ++ d ++ ": not a directory")
  | some .dir => .ok fs
  | none => .ok (fs.setEntry d .dir)

/-- The filesystem operations a tool call performs, in order (the trace lets
the theorems state that a failing call touched nothing). -/
inductive FsOp where
  | statOp (path : String)
  | readOp (path : String)
  | writeOp (path content : String)
  | removeOp (path : String)
  | mkdirAllOp (d : String)
  deriving DecidableEq, Repr

/-! ### edit_file (`internal/tools/file/edit.go`) -/

/-- The placeholder values `isFileCreationRequest` recognises. -/
def creationPlaceholders : List String :=
  ["", "FILE_DOES_NOT_EXIST", "NEW_FILE", "PLACEHOLDER", "empty", "CREATE_FILE"]

/-- Go `EditFileTool.isFileCreationRequest`. -/
def EditFileTool.isFileCreationRequest (oldStr : String) : Bool :=
  creationPlaceholders.contains oldStr

/-- Go `EditFileTool.createNewFile`: `MkdirAll` on `path.Dir` when it is not
`"."`, then write `content` as the whole file; each step's failure is
wrapped and returned (the trace records the attempted operations). -/
def EditFileTool.createNewFile (filePath content : String) (fs : Fs) :
    Except String String × Fs × List FsOp :=
  let d := pathDir filePath
  if d ≠ "." then
    match fs.mkdirAll d with
    | .error e => (.error ("failed to create directory: " ++ e), fs, [.mkdirAllOp d])
    | .ok fs1 =>
        match fs1.writeFile filePath content with
        | .error e =>
            (.error ("failed to create file: " ++ e), fs1,
              [.mkdirAllOp d, .writeOp filePath content])
        | .ok fs2 =>
            (.ok ("Successfully created file " ++ filePath), fs2,
              [.mkdirAllOp d, .writeOp filePath content])
  else
    match fs.writeFile filePath content with
    | .error e => (.error ("failed to create file: " ++ e), fs, [.writeOp filePath content])
    | .ok fs2 =>
        (.ok ("Successfully created file " ++ filePath), fs2, [.writeOp filePath content])

/-- Go `EditFileTool.Execute`, as a transformer of the filesystem state that also
reports the trace of filesystem operations it performed. -/
def EditFileTool.Execute (input : RawMessage) (fs : Fs) :
    Except String String × Fs × List FsOp :=
  match decodeEditFileInput input with
  | .error e => (.error e, fs, [])
  | .ok inp =>
      if inp.Path = "" then (.error "path cannot be empty", fs, [])
      else if EditFileTool.isFileCreationRequest inp.OldStr then
        EditFileTool.createNewFile inp.Path inp.NewStr fs
      else if inp.OldStr = inp.NewStr then
        (.error "old_str and new_str must be different", fs, [])
      else
        match fs.lookup inp.Path with
        | none =>
            (.error ("file does not exist. To create a new file, use an empty old_str " ++
              "or one of these placeholders: FILE_DOES_NOT_EXIST, NEW_FILE, PLACEHOLDER"),
              fs, [.readOp inp.Path])
        | some .dir =>
            -- os.ReadFile on a directory fails with an error that is not IsNotExist
            (.error ("read " ++ inp.Path ++ ": is a directory"), fs, [.readOp inp.Path])
        | some (.file oldContent) =>
            if inp.OldStr = "" then
              -- dead in the source: "" is a creation placeholder, caught above
              if oldContent = "" then
                match fs.writeFile inp.Path inp.NewStr with
                | .error e => (.error e, fs, [.readOp inp.Path, .writeOp inp.Path inp.NewStr])
                | .ok fs2 => (.ok "OK", fs2, [.readOp inp.Path, .writeOp inp.Path inp.NewStr])
              else
                (.error ("old_str cannot be empty when file has existing content. " ++
                  "Please specify the text to replace"), fs, [.readOp inp.Path])
            else
              let newContent := goReplaceAll oldContent inp.OldStr inp.NewStr
              if oldContent = newContent then
                (.error ("old_str \x27" ++ inp.OldStr ++ "\x27 not found in file"),
                  fs, [.readOp inp.Path])
              else
                match fs.writeFile inp.Path newContent with
                | .error e => (.error e, fs, [.readOp inp.Path, .writeOp inp.Path newContent])
                | .ok fs2 => (.ok "OK", fs2, [.readOp inp.Path, .writeOp inp.Path newContent])

/-! ### delete_file (`internal/tools/file/delete.go`) -/

/-- Go `tools.ToolContext`: its `GetUserInput` field is a nullable
`func() (string, bool)`; it is modelled by the pair the one call in
`confirmDeletion` would return (`none` = nil function). -/
structure ToolContext where
  GetUserInput : Option (String × Bool)

/-- Go `DeleteFileInput.Validate` (message already formatted: Go
`fmt.Errorf("parameter %q is required", "path")`). -/
def DeleteFileInput.Validate (d : DeleteFileInput) : Except String Unit :=
  if d.Path = "" then .error "parameter \"path\" is required" else .ok ()

/-- Go `DeleteFileTool.parseAndValidateInput`. -/
def DeleteFileTool.parseAndValidateInput (input : RawMessage) : Except String DeleteFileInput :=
  match decodeDeleteInput input with
  | .error e => .error ("invalid JSON input: " ++ e)
  | .ok d =>
      match d.Validate with
      | .error e => .error e
      | .ok _ => .ok d

/-- Go `DeleteFileTool.validateFileExists`: one `os.Stat`, distinguishing a
missing entry, a directory, and a regular file. -/
def DeleteFileTool.validateFileExists (fs : Fs) (path : String) : Except String Unit :=
  match fs.lookup path with
  | none => .error ("file not found: " ++ path)
  | some .dir =>
      .error (path ++ " is a directory, not a file. Use directory tools for directory operations")
  | some (.file _) => .ok ()

/-- Go `DeleteFileTool.confirmDeletion`: with no input function, warn and proceed
(`true`); otherwise the trimmed, lowercased response must be `yes` or `y`
(a closed input stream, `ok = false`, cancels). Console prints are elided. -/
def DeleteFileTool.confirmDeletion (ctx : ToolContext) (_path : String) : Bool :=
  match ctx.GetUserInput with
  | none => true
  | some (response, ok) =>
      if !ok then false
      else
        let r := goToLower (goTrimSpace response)
        r == "yes" || r == "y"

/-- Go `DeleteFileTool.Execute` as a filesystem-state transformer with an
operation trace. `os.Remove` succeeds in the model because
`validateFileExists` just saw a regular file (single-threaded session). -/
def DeleteFileTool.Execute (ctx : ToolContext) (input : RawMessage) (fs : Fs) :
    Except String String × Fs × List FsOp :=
  match DeleteFileTool.parseAndValidateInput input with
  | .error e => (.error e, fs, [])
  | .ok inp =>
      match DeleteFileTool.validateFileExists fs inp.Path with
      | .error e => (.error e, fs, [.statOp inp.Path])
      | .ok _ =>
          if ! DeleteFileTool.confirmDeletion ctx inp.Path then
            (.ok "File deletion cancelled by user", fs, [.statOp inp.Path])
          else
            (.ok ("Successfully deleted file " ++ inp.Path), fs.removeEntry inp.Path,
              [.statOp inp.Path, .removeOp inp.Path])

/-- Sample: a filesystem with one regular file. -/
def fsSample : Fs := ⟨[("a.txt", Entry.file "hello world")]⟩

/-! ### Slice aliasing model (for the `GetAll` copy-semantics claim)

The Go code returns `result := make(...); copy(result, r.tools)`. Whether a
caller mutating the returned slice can corrupt the registry depends on which
backing array the returned slice points at, so this one claim is settled at
the memory level: slices are references into a heap of backing arrays. -/

/-- A Go slice value: a reference to a backing array in the heap. -/
structure GoSlice where
  id : Nat
  deriving DecidableEq, Repr

/-- The heap of backing arrays for `[]ToolDefinition` slices. -/
structure Heap where
  arrays : List (List ToolDefinition)
  deriving DecidableEq, Repr

/-- The whole contents of the array a slice refers to. -/
def Heap.readArr (h : Heap) (s : GoSlice) : List ToolDefinition :=
  h.arrays.getD s.id []

/-- Writing `slice[i] = v`: an in-place write through the slice into its backing
array (an out-of-range index, a panic in Go, is a no-op here — either way
no other array is touched). -/
def Heap.writeIdx (h : Heap) (s : GoSlice) (i : Nat) (v : ToolDefinition) : Heap :=
  ⟨h.arrays.set s.id ((h.arrays.getD s.id []).set i v)⟩

/-- The registry's `tools` field as a slice reference into the heap. -/
structure RegistryMem where
  tools : GoSlice
  deriving DecidableEq, Repr

/-- Go `Registry.GetAll` at the memory level: `make` allocates a fresh backing
array, `copy` fills it with the registry's current contents, and the fresh
slice is returned; the registry keeps referring to its own array. -/
def getAllMem (h : Heap) (r : RegistryMem) : GoSlice × Heap :=
  (⟨h.arrays.length⟩, ⟨h.arrays ++ [h.readArr r.tools]⟩)

/-- Go `Registry.GetByName` at the memory level: the same first-match scan over
the registry's own array. -/
def getByNameMem (h : Heap) (r : RegistryMem) (name : String) : Option ToolDefinition :=
  (h.readArr r.tools).find? (fun tool => tool.Name == name)

/-! ## Theorems -/

theorem registerAll_tools (defs : List ToolDefinition) :
    (registerAll defs).tools = defs := by
  suffices h : ∀ r : Registry, (defs.foldl Registry.Register r).tools = r.tools ++ defs by
    simpa using h Registry.empty
  induction defs with
  | nil => intro r; simp
  | cons d ds ih =>
      intro r
      simp [List.foldl_cons, ih, Registry.Register]

theorem find?_append_of_none {α : Type} (p : α → Bool) {l₁ : List α} (l₂ : List α)
    (h : l₁.find? p = none) : (l₁ ++ l₂).find? p = l₂.find? p := by
  induction l₁ with
  | nil => simp
  | cons a l ih =>
      cases ha : p a with
      | true =>
          rw [List.find?_cons_of_pos _ ha] at h
          cases h
      | false =>
          rw [List.find?_cons_of_neg _ (by simp [ha])] at h
          rw [List.cons_append, List.find?_cons_of_neg _ (by simp [ha])]
          exact ih h

/-- C1 counterexample: registering `editDefB` after `editDefA` (same name
`edit_file`) leaves the catalog in a state that matches neither documented
policy — the second registration is not rejected (the catalog is not
`[editDefA]`) and the second definition does not replace the first (the
catalog is not `[editDefB]`); both entries remain. -/
theorem c1_duplicate_policy_counterexample :
    ¬ (((Registry.empty.Register editDefA).Register editDefB).GetAll = [editDefA] ∨
       ((Registry.empty.Register editDefA).Register editDefB).GetAll = [editDefB]) := by
  decide

/-- C1 (amended): `Register` appends unconditionally, so after a duplicate
registration both definitions remain in the catalog in registration order,
and `GetByName` deterministically returns the first-registered definition
for that name (the duplicate never shadows it). -/
theorem c1_duplicate_register_appends (r : Registry) (t1 t2 : ToolDefinition)
    (hname : t1.Name = t2.Name) (hfresh : r.GetByName t1.Name = none) :
    ((r.Register t1).Register t2).GetAll = r.GetAll ++ [t1, t2] ∧
    ((r.Register t1).Register t2).GetByName t2.Name = some t1 := by
  constructor
  · simp [Registry.Register, Registry.GetAll]
  · have htools : ((r.Register t1).Register t2).tools = r.tools ++ [t1, t2] := by
      simp [Registry.Register]
    rw [Registry.GetByName, htools]
    rw [find?_append_of_none _ _ (by rw [← hname]; exact hfresh)]
    simp [List.find?_cons_of_pos, hname]

/-- Witness for `c1_duplicate_register_appends` at concrete registrations. -/
theorem c1_duplicate_register_appends_witness :
    Registry.empty.GetByName editDefA.Name = none ∧
    (((Registry.empty.Register editDefA).Register editDefB).GetAll =
        Registry.empty.GetAll ++ [editDefA, editDefB] ∧
      ((Registry.empty.Register editDefA).Register editDefB).GetByName editDefB.Name =
        some editDefA) :=
  ⟨by decide, c1_duplicate_register_appends Registry.empty editDefA editDefB rfl (by decide)⟩

theorem find?_name_of_nodup (defs : List ToolDefinition) (d : ToolDefinition)
    (hnodup : (defs.map (·.Name)).Nodup) (hd : d ∈ defs) :
    defs.find? (fun t => t.Name == d.Name) = some d := by
  induction defs with
  | nil => cases hd
  | cons a l ih =>
      rw [List.map_cons, List.nodup_cons] at hnodup
      rcases List.mem_cons.mp hd with h | h
      · subst h
        exact List.find?_cons_of_pos _ (by simp)
      · have hna : a.Name ≠ d.Name := by
          intro hEq
          exact hnodup.1 (hEq ▸ List.mem_map_of_mem (·.Name) h)
        rw [List.find?_cons_of_neg _ (by simp [hna])]
        exact ih hnodup.2 h

/-- C3: for tool definitions registered under pairwise distinct names,
`GetByName` returns exactly the definition registered under the queried
name (registration/lookup round trip). -/
theorem c3_register_lookup_roundtrip (defs : List ToolDefinition)
    (hnodup : (defs.map (·.Name)).Nodup) (d : ToolDefinition) (hd : d ∈ defs) :
    (registerAll defs).GetByName d.Name = some d := by
  rw [Registry.GetByName, registerAll_tools]
  exact find?_name_of_nodup defs d hnodup hd

/-- Witness for `c3_register_lookup_roundtrip` on two concrete tools with
distinct names. -/
theorem c3_register_lookup_roundtrip_witness :
    ([editDefA, deleteDef].map (·.Name)).Nodup ∧ deleteDef ∈ [editDefA, deleteDef] ∧
    (registerAll [editDefA, deleteDef]).GetByName deleteDef.Name = some deleteDef :=
  ⟨by decide, by decide,
    c3_register_lookup_roundtrip [editDefA, deleteDef] (by decide) deleteDef (by decide)⟩

theorem decodeEditFileInput_obj (path oldStr newStr : String) :
    decodeEditFileInput (some (.obj
        [("path", .str path), ("old_str", .str oldStr), ("new_str", .str newStr)]))
      = .ok ⟨path, oldStr, newStr⟩ := rfl

theorem decodeDeleteInput_obj (path : String) :
    decodeDeleteInput (some (.obj [("path", .str path)])) = .ok ⟨path⟩ := rfl

theorem replaceAux_of_not_contains (old new s : List Char)
    (h : containsAux old s = false) : replaceAux old new s = s := by
  induction s with
  | nil => rw [replaceAux]
  | cons c rest ih =>
      rw [containsAux, Bool.or_eq_false_iff] at h
      rw [replaceAux, if_neg, ih h.2]
      intro hcond
      have := hcond.2
      rw [h.1] at this
      cases this

theorem goReplaceAll_of_not_found (content oldStr newStr : String) (hold : oldStr ≠ "")
    (h : containsSubstr content oldStr = false) :
    goReplaceAll content oldStr newStr = content := by
  have hdata : ¬ oldStr.data = [] := by
    intro hnil
    apply hold
    cases oldStr with
    | mk d => cases hnil; rfl
  rw [goReplaceAll, if_neg hdata, replaceAux_of_not_contains oldStr.data newStr.data content.data h]

theorem Fs.lookup_removeEntry_self (fs : Fs) (p : String) :
    (fs.removeEntry p).lookup p = none := by
  rw [Fs.lookup]
  have hfind : (fs.removeEntry p).entries.find? (fun e => e.1 == p) = none := by
    rw [List.find?_eq_none]
    intro x hx
    rw [Fs.removeEntry] at hx
    have hmem := (List.mem_filter.mp hx).2
    simp only [bne_iff_ne, ne_eq, decide_eq_true_eq] at hmem
    simp [hmem]
  rw [hfind]
  rfl

/-- C2: evaluated on the declared `delete_file` input shape, whose single
field `path` is not optional, `GenerateSchema` keeps the field in
`Properties` but returns an empty `Required` list even though the reflected
schema marked `path` as required: the non-optional field is not marked
required in the emitted schema object. -/
theorem c2_generate_schema_drops_required :
    (GenerateSchema deleteFileShape).Properties.map Prod.fst = ["path"] ∧
    (reflect deleteFileShape).Required = ["path"] ∧
    (GenerateSchema deleteFileShape).Required = [] := by
  decide

/-- C4: a raw payload that does not decode into the tool input shape makes
`Execute` return the decode error with the filesystem untouched and an empty
operation trace — the handler logic past decoding is never reached. Shown
for both `edit_file` and `delete_file`. -/
theorem c4_undecodable_input_no_effect (raw : RawMessage) (fs : Fs) (ctx : ToolContext)
    (e₁ e₂ : String)
    (h₁ : decodeEditFileInput raw = .error e₁)
    (h₂ : decodeDeleteInput raw = .error e₂) :
    EditFileTool.Execute raw fs = (.error e₁, fs, []) ∧
    DeleteFileTool.Execute ctx raw fs = (.error ("invalid JSON input: " ++ e₂), fs, []) := by
  constructor
  · simp only [EditFileTool.Execute, h₁]
  · simp only [DeleteFileTool.Execute, DeleteFileTool.parseAndValidateInput, h₂]

/-- Witness for `c4_undecodable_input_no_effect` on the payload `5`. -/
theorem c4_undecodable_input_no_effect_witness :
    decodeEditFileInput (some (.num 5)) =
      .error "json: cannot unmarshal value into Go value of type file.EditFileInput" ∧
    decodeDeleteInput (some (.num 5)) =
      .error "json: cannot unmarshal value into Go value of type file.DeleteFileInput" ∧
    (EditFileTool.Execute (some (.num 5)) fsSample =
        (.error "json: cannot unmarshal value into Go value of type file.EditFileInput",
          fsSample, []) ∧
      DeleteFileTool.Execute ⟨none⟩ (some (.num 5)) fsSample =
        (.error ("invalid JSON input: " ++
            "json: cannot unmarshal value into Go value of type file.DeleteFileInput"),
          fsSample, [])) :=
  ⟨rfl, rfl, c4_undecodable_input_no_effect (some (.num 5)) fsSample ⟨none⟩ _ _ rfl rfl⟩

/-- C5: on an existing file, a non-placeholder, non-empty `old_str` that
differs from `new_str` and occurs nowhere in the content makes `edit_file`
fail with the not-found message; the filesystem is unchanged and the call
performed the read only (no write). -/
theorem c5_edit_not_found_leaves_file (path oldStr newStr content : String) (fs : Fs)
    (hpath : path ≠ "")
    (hcreate : EditFileTool.isFileCreationRequest oldStr = false)
    (hdiff : oldStr ≠ newStr)
    (hfile : fs.lookup path = some (.file content))
    (hnot : containsSubstr content oldStr = false) :
    EditFileTool.Execute
        (some (.obj [("path", .str path), ("old_str", .str oldStr), ("new_str", .str newStr)])) fs
      = (.error ("old_str \x27" ++ oldStr ++ "\x27 not found in file"), fs, [.readOp path]) := by
  have hold : oldStr ≠ "" := by
    intro hEq
    subst hEq
    simp [EditFileTool.isFileCreationRequest, creationPlaceholders] at hcreate
  have hrepl : goReplaceAll content oldStr newStr = content :=
    goReplaceAll_of_not_found content oldStr newStr hold hnot
  simp only [EditFileTool.Execute, decodeEditFileInput_obj]
  simp [hpath, hcreate, hdiff, hfile, hold, hrepl]

/-- Witness for `c5_edit_not_found_leaves_file` on a concrete file and a
search string that does not occur. -/
theorem c5_edit_not_found_leaves_file_witness :
    ("a.txt" : String) ≠ "" ∧ EditFileTool.isFileCreationRequest "zz" = false ∧
    ("zz" : String) ≠ "y" ∧ fsSample.lookup "a.txt" = some (.file "hello world") ∧
    containsSubstr "hello world" "zz" = false ∧
    EditFileTool.Execute
        (some (.obj [("path", .str "a.txt"), ("old_str", .str "zz"), ("new_str", .str "y")]))
        fsSample
      = (.error ("old_str \x27" ++ "zz" ++ "\x27 not found in file"), fsSample,
          [.readOp "a.txt"]) :=
  ⟨by decide, by decide, by decide, by decide, by decide,
    c5_edit_not_found_leaves_file "a.txt" "zz" "y" "hello world" fsSample
      (by decide) (by decide) (by decide) (by decide) (by decide)⟩

/-- C6: when the delete_file confirmation response obtained through the
execution context is anything but an affirmative `yes`/`y` (after trimming
and lowercasing; a closed input stream included), `Execute` returns the
success-flagged cancellation text, the filesystem is unchanged, and the file
still exists. -/
theorem c6_delete_declined_cancels (path content response : String) (ok : Bool) (fs : Fs)
    (hpath : path ≠ "")
    (hfile : fs.lookup path = some (.file content))
    (hresp : ¬ (ok = true ∧ (goToLower (goTrimSpace response) = "yes" ∨
        goToLower (goTrimSpace response) = "y"))) :
    DeleteFileTool.Execute ⟨some (response, ok)⟩ (some (.obj [("path", .str path)])) fs
      = (.ok "File deletion cancelled by user", fs, [.statOp path]) ∧
    fs.lookup path = some (.file content) := by
  refine ⟨?_, hfile⟩
  have hconf : DeleteFileTool.confirmDeletion ⟨some (response, ok)⟩ path = false := by
    cases ok with
    | false => simp [DeleteFileTool.confirmDeletion]
    | true =>
        have h1 : goToLower (goTrimSpace response) ≠ "yes" := fun hEq => hresp ⟨rfl, Or.inl hEq⟩
        have h2 : goToLower (goTrimSpace response) ≠ "y" := fun hEq => hresp ⟨rfl, Or.inr hEq⟩
        simp [DeleteFileTool.confirmDeletion, h1, h2]
  simp only [DeleteFileTool.Execute, DeleteFileTool.parseAndValidateInput, decodeDeleteInput_obj]
  simp [DeleteFileInput.Validate, hpath, DeleteFileTool.validateFileExists, hfile, hconf]

/-- Witness for `c6_delete_declined_cancels` with the response `no`. -/
theorem c6_delete_declined_cancels_witness :
    ("a.txt" : String) ≠ "" ∧ fsSample.lookup "a.txt" = some (.file "hello world") ∧
    ¬ (true = true ∧ (goToLower (goTrimSpace "no") = "yes" ∨
        goToLower (goTrimSpace "no") = "y")) ∧
    (DeleteFileTool.Execute ⟨some ("no", true)⟩ (some (.obj [("path", .str "a.txt")])) fsSample
        = (.ok "File deletion cancelled by user", fsSample, [.statOp "a.txt"]) ∧
      fsSample.lookup "a.txt" = some (.file "hello world")) :=
  ⟨by decide, by decide, by decide,
    c6_delete_declined_cancels "a.txt" "hello world" "no" true fsSample
      (by decide) (by decide) (by decide)⟩

/-- C10: with no user-input capability in the execution context
(`GetUserInput` nil), `confirmDeletion` returns `true` without asking, and
`Execute` on an existing regular file proceeds to delete it and reports
success; the file is gone afterwards. -/
theorem c10_nil_input_skips_confirmation (path content : String) (fs : Fs)
    (hpath : path ≠ "")
    (hfile : fs.lookup path = some (.file content)) :
    DeleteFileTool.confirmDeletion ⟨none⟩ path = true ∧
    DeleteFileTool.Execute ⟨none⟩ (some (.obj [("path", .str path)])) fs
      = (.ok ("Successfully deleted file " ++ path), fs.removeEntry path,
          [.statOp path, .removeOp path]) ∧
    (fs.removeEntry path).lookup path = none := by
  refine ⟨rfl, ?_, Fs.lookup_removeEntry_self fs path⟩
  simp only [DeleteFileTool.Execute, DeleteFileTool.parseAndValidateInput, decodeDeleteInput_obj]
  simp [DeleteFileInput.Validate, hpath, DeleteFileTool.validateFileExists, hfile,
    DeleteFileTool.confirmDeletion]

/-- Witness for `c10_nil_input_skips_confirmation` on a concrete file. -/
theorem c10_nil_input_skips_confirmation_witness :
    ("a.txt" : String) ≠ "" ∧ fsSample.lookup "a.txt" = some (.file "hello world") ∧
    (DeleteFileTool.confirmDeletion ⟨none⟩ "a.txt" = true ∧
      DeleteFileTool.Execute ⟨none⟩ (some (.obj [("path", .str "a.txt")])) fsSample
        = (.ok ("Successfully deleted file " ++ "a.txt"), fsSample.removeEntry "a.txt",
            [.statOp "a.txt", .removeOp "a.txt"]) ∧
      (fsSample.removeEntry "a.txt").lookup "a.txt" = none) :=
  ⟨by decide, by decide,
    c10_nil_input_skips_confirmation "a.txt" "hello world" fsSample (by decide) (by decide)⟩

/-- C8: `GetAll` returns a snapshot with the full current catalog in stored
(= registration, since `Register` appends) order, backed by a fresh array:
an in-place write through the returned slice leaves the registry's own
array, and with it every later `GetByName` and `GetAll` observation,
unchanged. -/
theorem getAllMem_reads_current (h : Heap) (r : RegistryMem) :
    (getAllMem h r).2.readArr (getAllMem h r).1 = h.readArr r.tools := by
  show (h.arrays ++ [h.readArr r.tools]).getD h.arrays.length [] = _
  rw [List.getD_eq_getElem?_getD, List.getElem?_append_right (Nat.le_refl _), Nat.sub_self]
  rfl

theorem c8_getall_snapshot_copy_semantics (h : Heap) (r : RegistryMem)
    (defs : List ToolDefinition) (i : Nat) (v : ToolDefinition) (name : String)
    (hid : r.tools.id < h.arrays.length)
    (hcontents : h.readArr r.tools = defs) :
    (getAllMem h r).2.readArr (getAllMem h r).1 = defs ∧
    (((getAllMem h r).2.writeIdx (getAllMem h r).1 i v).readArr r.tools = defs ∧
      getByNameMem (((getAllMem h r).2.writeIdx (getAllMem h r).1 i v)) r name =
        getByNameMem h r name ∧
      ((getAllMem (((getAllMem h r).2.writeIdx (getAllMem h r).1 i v)) r).2).readArr
          (getAllMem (((getAllMem h r).2.writeIdx (getAllMem h r).1 i v)) r).1 = defs) ∧
    (registerAll defs).GetAll = defs := by
  have hne : h.arrays.length ≠ r.tools.id := by omega
  have hreg : ((getAllMem h r).2.writeIdx (getAllMem h r).1 i v).readArr r.tools = defs := by
    simp only [getAllMem, Heap.writeIdx, Heap.readArr]
    rw [List.getD_eq_getElem?_getD, List.getElem?_set_ne hne,
      List.getElem?_append_left hid, ← List.getD_eq_getElem?_getD]
    have : h.arrays.getD r.tools.id [] = h.readArr r.tools := rfl
    rw [this, hcontents]
  refine ⟨(getAllMem_reads_current h r).trans hcontents, ⟨hreg, ?_, ?_⟩, ?_⟩
  · rw [getByNameMem, getByNameMem, hreg, hcontents]
  · exact (getAllMem_reads_current _ r).trans hreg
  · rw [Registry.GetAll, registerAll_tools]

/-- Witness for `c8_getall_snapshot_copy_semantics` on a concrete two-tool
registry, overwriting slot 0 of the snapshot. -/
theorem c8_getall_snapshot_copy_semantics_witness :
    (⟨⟨0⟩⟩ : RegistryMem).tools.id < (⟨[[editDefA, deleteDef]]⟩ : Heap).arrays.length ∧
    (⟨[[editDefA, deleteDef]]⟩ : Heap).readArr (⟨⟨0⟩⟩ : RegistryMem).tools =
      [editDefA, deleteDef] ∧
    ((getAllMem ⟨[[editDefA, deleteDef]]⟩ ⟨⟨0⟩⟩).2.readArr
        (getAllMem ⟨[[editDefA, deleteDef]]⟩ ⟨⟨0⟩⟩).1 = [editDefA, deleteDef] ∧
      (((getAllMem ⟨[[editDefA, deleteDef]]⟩ ⟨⟨0⟩⟩).2.writeIdx
            (getAllMem ⟨[[editDefA, deleteDef]]⟩ ⟨⟨0⟩⟩).1 0 editDefB).readArr
          (⟨⟨0⟩⟩ : RegistryMem).tools = [editDefA, deleteDef] ∧
        getByNameMem ((getAllMem ⟨[[editDefA, deleteDef]]⟩ ⟨⟨0⟩⟩).2.writeIdx
            (getAllMem ⟨[[editDefA, deleteDef]]⟩ ⟨⟨0⟩⟩).1 0 editDefB) ⟨⟨0⟩⟩ "edit_file" =
          getByNameMem ⟨[[editDefA, deleteDef]]⟩ ⟨⟨0⟩⟩ "edit_file" ∧
        ((getAllMem ((getAllMem ⟨[[editDefA, deleteDef]]⟩ ⟨⟨0⟩⟩).2.writeIdx
              (getAllMem ⟨[[editDefA, deleteDef]]⟩ ⟨⟨0⟩⟩).1 0 editDefB) ⟨⟨0⟩⟩).2).readArr
            (getAllMem ((getAllMem ⟨[[editDefA, deleteDef]]⟩ ⟨⟨0⟩⟩).2.writeIdx
              (getAllMem ⟨[[editDefA, deleteDef]]⟩ ⟨⟨0⟩⟩).1 0 editDefB) ⟨⟨0⟩⟩).1 =
          [editDefA, deleteDef]) ∧
      (registerAll [editDefA, deleteDef]).GetAll = [editDefA, deleteDef]) :=
  ⟨by decide, by decide,
    c8_getall_snapshot_copy_semantics ⟨[[editDefA, deleteDef]]⟩ ⟨⟨0⟩⟩
      [editDefA, deleteDef] 0 editDefB "edit_file" (by decide) (by decide)⟩
